import Mathlib

/-!
Verification of the typed value-coercion and struct-population engine of the
`env` package (src/result.go and the struct populator in src/unnamed/part_008).

The Go code is shallowly embedded: each Go function becomes a Lean function
over `String` / `List Char`, fallible operations return `Except String`,
and the reflection-based struct populator becomes a fold over a list of
field descriptors.  The Go standard-library routines the code calls
(`strings.Split`, `strings.TrimSpace`, `strings.ToLower`, `strconv.Atoi`,
`strconv.ParseInt`, `strconv.ParseUint`, `strconv.ParseFloat`,
`time.ParseDuration`, `reflect.Value.Set*`) are modelled from their Go
sources at the level of detail the verified properties depend on; the
deliberate approximations are flagged in the doc comment of each model.
-/

namespace GoEnv

/-- ASCII lower-casing of one character.  Models the ASCII fragment of Go's
`strings.ToLower` / strconv's `lower` (Go's `lower` is `c | 0x20` on bytes;
for every comparison the embedded code performs the two agree, since both
map exactly `'A'..'Z'` into the compared-against lowercase letters). -/
def lowerAscii (c : Char) : Char :=
  if 'A' ≤ c ∧ c ≤ 'Z' then Char.ofNat (c.toNat + 32) else c

/-- ASCII upper-casing of one character (fragment of `strings.ToUpper`;
Go struct-field names are ASCII identifiers, where the two agree). -/
def upperAscii (c : Char) : Char :=
  if 'a' ≤ c ∧ c ≤ 'z' then Char.ofNat (c.toNat - 32) else c

/-- `strings.ToLower`, restricted to the ASCII case mapping.  No non-ASCII
character maps into the ASCII truthy tokens `{"true","1","yes","y"}` under
Go's full Unicode mapping either (the only Unicode character lowering into
ASCII is U+212A → 'k'), so the boolean predicates below agree with Go on
every input string. -/
def goToLower (s : String) : String :=
  String.mk (s.data.map lowerAscii)

/-- `strings.ToUpper`, restricted to the ASCII case mapping. -/
def goToUpper (s : String) : String :=
  String.mk (s.data.map upperAscii)

/-- `unicode.IsSpace`: Go's white space property (the set used by
`strings.TrimSpace`), with its U+2000–U+200A range written out
character by character. -/
def goIsSpace (c : Char) : Bool :=
  c = ' ' ∨ c = '\t' ∨ c = '\n' ∨ c = Char.ofNat 11 ∨ c = Char.ofNat 12 ∨
  c = '\r' ∨ c = Char.ofNat 0x85 ∨ c = Char.ofNat 0xA0 ∨ c = Char.ofNat 0x1680 ∨
  c = Char.ofNat 0x2000 ∨ c = Char.ofNat 0x2001 ∨ c = Char.ofNat 0x2002 ∨
  c = Char.ofNat 0x2003 ∨ c = Char.ofNat 0x2004 ∨ c = Char.ofNat 0x2005 ∨
  c = Char.ofNat 0x2006 ∨ c = Char.ofNat 0x2007 ∨ c = Char.ofNat 0x2008 ∨
  c = Char.ofNat 0x2009 ∨ c = Char.ofNat 0x200A ∨
  c = Char.ofNat 0x2028 ∨ c = Char.ofNat 0x2029 ∨ c = Char.ofNat 0x202F ∨
  c = Char.ofNat 0x205F ∨ c = Char.ofNat 0x3000

/-- `strings.TrimSpace`: drop leading and trailing white space. -/
def goTrimSpace (s : String) : String :=
  String.mk (((s.data.dropWhile goIsSpace).reverse.dropWhile goIsSpace).reverse)

/-- Core of `strings.Split` for a non-empty separator: scan left to right,
cut at each leftmost occurrence of `sep` and continue after it (Go's
`genSplit`).  `acc` holds the reversed chars of the current piece; `skip`
counts separator chars still to be consumed after a match (the scan
re-tests for a separator only once the previous one is fully consumed,
exactly like Go resuming at the index past the separator), which keeps the
recursion structural. -/
def goSplitCore (sep : List Char) : Nat → List Char → List Char →
    List (List Char)
  | _, acc, [] => [acc.reverse]
  | skip + 1, acc, _ :: rest => goSplitCore sep skip acc rest
  | 0, acc, c :: rest =>
    if sep.isPrefixOf (c :: rest) ∧ sep ≠ [] then
      acc.reverse :: goSplitCore sep (sep.length - 1) [] rest
    else
      goSplitCore sep 0 (c :: acc) rest

/-- `strings.Split`.  With an empty separator Go splits into UTF-8 runes;
with a non-empty separator it cuts at each occurrence (and `Split("", sep)`
is `[""]`). -/
def goSplit (s sep : String) : List String :=
  if sep = "" then s.data.map (fun c => String.mk [c])
  else (goSplitCore sep.data 0 [] s.data).map String.mk

/-- Core of `strings.SplitN(s, sep, 2)` for a non-empty separator: cut at
the first occurrence only; if `sep` does not occur the result is `[s]`. -/
def goSplitN2Core (sep : List Char) (acc : List Char) (s : List Char) :
    List (List Char) :=
  match s with
  | [] => [acc.reverse]
  | c :: rest =>
    if sep.isPrefixOf (c :: rest) ∧ sep ≠ [] then
      [acc.reverse, List.drop sep.length (c :: rest)]
    else
      goSplitN2Core sep (c :: acc) rest

/-- `strings.SplitN(s, sep, 2)` (used by the map parsers with `sep = ":"`). -/
def goSplitN2 (s sep : String) : List String :=
  (goSplitN2Core sep.data [] s.data).map String.mk

/-- `strconv.Quote` as used inside stdlib error messages, modelled as plain
double-quoting.  (Go additionally escapes control and non-printable
characters; no verified property inspects an error message built from such
a string.) -/
def goQuote (s : String) : String :=
  "\"" ++ s ++ "\""

instance {ε α : Type} [DecidableEq ε] [DecidableEq α] : DecidableEq (Except ε α) := fun a b =>
  match a, b with
  | .error e, .error e' =>
    if h : e = e' then .isTrue (by rw [h]) else .isFalse (by intro hc; cases hc; exact h rfl)
  | .ok v, .ok v' =>
    if h : v = v' then .isTrue (by rw [h]) else .isFalse (by intro hc; cases hc; exact h rfl)
  | .error _, .ok _ => .isFalse (by intro hc; cases hc)
  | .ok _, .error _ => .isFalse (by intro hc; cases hc)

/-- The failure cases of Go's `strconv` numeric parsers (`*strconv.NumError`
with `ErrSyntax` or `ErrRange`). -/
inductive NumErrReason where
  | invalidSyntax
  | outOfRange
deriving Repr, DecidableEq

/-- The message text Go renders for each `strconv` failure reason. -/
def NumErrReason.msg : NumErrReason → String
  | .invalidSyntax => "invalid syntax"
  | .outOfRange => "value out of range"

/-- Decimal digit test (`'0' <= c && c <= '9'`). -/
def isDigit (c : Char) : Bool :=
  '0' ≤ c ∧ c ≤ '9'

/-- Accumulate a run of decimal digits; `none` if a non-digit occurs or the
run is empty (checked by the caller via the empty-list case). -/
def decDigitsVal : List Char → Nat → Option Nat
  | [], acc => some acc
  | c :: rest, acc =>
    if isDigit c then decDigitsVal rest (acc * 10 + (c.toNat - 48)) else none

/-- `strconv.ParseInt(s, 10, 64)`: optional sign, then a non-empty run of
decimal digits (underscores are rejected at an explicit base), with the
signed 64-bit range check.  Go's fast-path `Atoi` has the same semantics on
a 64-bit platform.  (Go reports `ErrRange` together with a clamped value;
both callers in the repository discard the value whenever an error is
present, so the model returns only the error.) -/
def goParseIntCore (s : String) : Except NumErrReason Int :=
  let (neg, digits) :=
    match s.data with
    | '+' :: rest => (false, rest)
    | '-' :: rest => (true, rest)
    | l => (false, l)
  match digits with
  | [] => .error .invalidSyntax
  | _ =>
    match decDigitsVal digits 0 with
    | none => .error .invalidSyntax
    | some n =>
      if neg then
        if n ≤ 2 ^ 63 then .ok (-(n : Int)) else .error .outOfRange
      else
        if n ≤ 2 ^ 63 - 1 then .ok (n : Int) else .error .outOfRange

/-- `strconv.Atoi` (used by `result.Int`), with Go's error string. -/
def goAtoi (s : String) : Except String Int :=
  match goParseIntCore s with
  | .ok n => .ok n
  | .error r => .error ("strconv.Atoi: parsing " ++ goQuote s ++ ": " ++ r.msg)

/-- `strconv.ParseInt(s, 10, 64)` (used by the struct populator), with Go's
error string. -/
def goParseInt64 (s : String) : Except String Int :=
  match goParseIntCore s with
  | .ok n => .ok n
  | .error r => .error ("strconv.ParseInt: parsing " ++ goQuote s ++ ": " ++ r.msg)

/-- `strconv.ParseUint(s, 10, 64)`: a non-empty all-digit string (sign
prefixes are rejected), with the unsigned 64-bit range check. -/
def goParseUint64 (s : String) : Except String Nat :=
  let fail := fun (r : NumErrReason) =>
    Except.error ("strconv.ParseUint: parsing " ++ goQuote s ++ ": " ++ r.msg)
  match s.data with
  | [] => fail .invalidSyntax
  | l =>
    match decDigitsVal l 0 with
    | none => fail .invalidSyntax
    | some n => if n ≤ 2 ^ 64 - 1 then .ok n else fail .outOfRange

/-- Loop state of strconv's `readFloat` (mantissa scan). -/
structure MantissaState where
  mantissa : Nat := 0
  nd : Nat := 0
  ndMant : Nat := 0
  dp : Int := 0
  sawdot : Bool := false
  sawdigits : Bool := false
  trunc : Bool := false
  underscores : Bool := false
deriving Repr, DecidableEq

/-- The mantissa scan of strconv's `readFloat`: digits (decimal, or hex when
`hex`), at most one `'.'`, `'_'` recorded for the later `underscoreOK`
check; stops at the first character outside those classes and returns the
unconsumed suffix. -/
def readMantissa (base maxMant : Nat) (hex : Bool) :
    MantissaState → List Char → MantissaState × List Char
  | st, [] => (st, [])
  | st, c :: rest =>
    if c = '_' then
      readMantissa base maxMant hex { st with underscores := true } rest
    else if c = '.' then
      if st.sawdot then (st, c :: rest)
      else readMantissa base maxMant hex { st with sawdot := true, dp := (st.nd : Int) } rest
    else if isDigit c then
      let st1 := { st with sawdigits := true }
      if c = '0' ∧ st1.nd = 0 then
        readMantissa base maxMant hex { st1 with dp := st1.dp - 1 } rest
      else
        let st2 := { st1 with nd := st1.nd + 1 }
        let st3 :=
          if st2.ndMant < maxMant then
            { st2 with mantissa := st2.mantissa * base + (c.toNat - 48),
                       ndMant := st2.ndMant + 1 }
          else if c ≠ '0' then { st2 with trunc := true }
          else st2
        readMantissa base maxMant hex st3 rest
    else if hex ∧ 'a' ≤ lowerAscii c ∧ lowerAscii c ≤ 'f' then
      let st1 := { st with sawdigits := true, nd := st.nd + 1 }
      let st2 :=
        if st1.ndMant < maxMant then
          { st1 with mantissa := st1.mantissa * 16 + ((lowerAscii c).toNat - 97 + 10),
                     ndMant := st1.ndMant + 1 }
        else { st1 with trunc := true }
      readMantissa base maxMant hex st2 rest
    else (st, c :: rest)

/-- The exponent-digit scan of `readFloat`: digits and underscores, the
accumulator capped below 10000 exactly as in Go. -/
def readExpLoop (e : Nat) (underscores : Bool) : List Char → Nat × Bool × List Char
  | [] => (e, underscores, [])
  | c :: rest =>
    if c = '_' then readExpLoop e true rest
    else if isDigit c then
      readExpLoop (if e < 10000 then e * 10 + (c.toNat - 48) else e) underscores rest
    else (e, underscores, c :: rest)

/-- The `saw` marker of strconv's `underscoreOK`. -/
inductive USaw where
  | caret
  | digit
  | under
  | other
deriving Repr, DecidableEq

/-- Scan of `underscoreOK`: an underscore must stand between digits. -/
def underscoreOKLoop (hex : Bool) : USaw → List Char → Bool
  | saw, [] => saw ≠ USaw.under
  | saw, c :: rest =>
    if isDigit c ∨ (hex ∧ 'a' ≤ lowerAscii c ∧ lowerAscii c ≤ 'f') then
      underscoreOKLoop hex .digit rest
    else if c = '_' then
      if saw ≠ USaw.digit then false else underscoreOKLoop hex .under rest
    else if saw = USaw.under then false
    else underscoreOKLoop hex .other rest

/-- strconv's `underscoreOK`: underscores may appear only as digit
separators of a Go literal (optional sign, optional `0b`/`0o`/`0x` prefix
that itself counts as a digit). -/
def underscoreOK (s : List Char) : Bool :=
  let l :=
    match s with
    | c :: rest => if c = '-' ∨ c = '+' then rest else s
    | [] => s
  match l with
  | '0' :: b :: rest =>
    if lowerAscii b = 'b' ∨ lowerAscii b = 'o' ∨ lowerAscii b = 'x' then
      underscoreOKLoop (lowerAscii b = 'x') .digit rest
    else underscoreOKLoop false .caret l
  | _ => underscoreOKLoop false .caret l

/-- The symbolic outcome of a successful `readFloat`: sign, scanned
mantissa, decimal (or binary, when `hex`) exponent, and the truncation
marker.  The verified properties depend on which strings parse, not on the
rounded IEEE-754 bit pattern, so the value is kept in this exact
pre-rounding form instead of as a machine float. -/
structure GoFloatNum where
  neg : Bool
  mantissa : Nat
  exp : Int
  trunc : Bool
  hex : Bool
deriving Repr, DecidableEq

/-- A parsed Go floating-point value: a finite symbolic number, an
infinity, or NaN. -/
inductive GoFloat where
  | num (f : GoFloatNum)
  | inf (neg : Bool)
  | nan
deriving Repr, DecidableEq

/-- The optional-sign step of `readFloat` (and of `special`): consume one
leading `'+'`/`'-'` and report negativity. -/
def stripSign (l : List Char) : Bool × List Char :=
  match l with
  | '+' :: rest => (false, rest)
  | '-' :: rest => (true, rest)
  | _ => (false, l)

/-- The hex-prefix step of `readFloat`: consume a leading `0x`/`0X` when at
least one character follows it (Go's `i+2 < len(s)` guard). -/
def stripHexPrefix (l : List Char) : Bool × List Char :=
  match l with
  | '0' :: x :: c :: rest =>
    if lowerAscii x = 'x' then (true, c :: rest) else (false, l)
  | _ => (false, l)

/-- The exponent-sign step of `readFloat`. -/
def stripExpSign (l : List Char) : ℤ × List Char :=
  match l with
  | '+' :: rest => (1, rest)
  | '-' :: rest => (-1, rest)
  | _ => (1, l)

/-- strconv's `readFloat`: optional sign, optional `0x` prefix (which
switches to the hex-mantissa/`p`-exponent grammar and makes the exponent
mandatory), mantissa with at most one dot and at least one digit, optional
`e`/`p` exponent with optional sign and at least one leading digit.
Returns the symbolic number, the underscore marker, and the unconsumed
suffix; `none` on malformed input. -/
def goReadFloat (l : List Char) : Option (GoFloatNum × Bool × List Char) :=
  let (neg, l1) := stripSign l
  let (hex, l2) := stripHexPrefix l1
  let base := if hex then 16 else 10
  let maxMant := if hex then 16 else 19
  let expChar := if hex then 'p' else 'e'
  let (st, l3) := readMantissa base maxMant hex {} l2
  if st.sawdigits = false then none
  else
    let dp0 : Int := if st.sawdot then st.dp else (st.nd : Int)
    let dp1 : Int := if hex then dp0 * 4 else dp0
    let ndMant : Nat := if hex then st.ndMant * 4 else st.ndMant
    let finish := fun (dp : Int) (us : Bool) (leftover : List Char) =>
      let exp : Int := if st.mantissa ≠ 0 then dp - (ndMant : Int) else 0
      some ({ neg := neg, mantissa := st.mantissa, exp := exp,
              trunc := st.trunc, hex := hex }, us, leftover)
    match l3 with
    | c :: rest =>
      if lowerAscii c = expChar then
        let (esign, r1) := stripExpSign rest
        match r1 with
        | d :: _ =>
          if isDigit d then
            let (e, us2, r2) := readExpLoop 0 st.underscores r1
            finish (dp1 + (e : Int) * esign) us2 r2
          else none
        | [] => none
      else if hex then none
      else finish dp1 st.underscores (c :: rest)
    | [] => if hex then none else finish dp1 st.underscores []

/-- `strconv.ParseFloat(s, 64)`: the case-insensitive specials
`inf`/`infinity` (optionally signed) and `nan` (unsigned only), else
`readFloat` which must consume the whole string, with the `underscoreOK`
validation.  (Go additionally reports `ErrRange` when the rounded value
overflows to an infinity or underflows; the rounding step, and hence that
range error, is outside the fragment the verified properties depend on —
they concern only which strings are syntactically accepted.) -/
def goParseFloat (s : String) : Except String GoFloat :=
  let fail : Except String GoFloat :=
    .error ("strconv.ParseFloat: parsing " ++ goQuote s ++ ": invalid syntax")
  let low := s.data.map lowerAscii
  if low = "nan".data then .ok .nan
  else if low = "inf".data ∨ low = "infinity".data ∨
          low = "+inf".data ∨ low = "+infinity".data then .ok (.inf false)
  else if low = "-inf".data ∨ low = "-infinity".data then .ok (.inf true)
  else
    match goReadFloat s.data with
    | none => fail
    | some (num, us, leftover) =>
      if leftover ≠ [] then fail
      else if us ∧ ¬underscoreOK s.data then fail
      else .ok (.num num)

/-- Value accumulation of time's `leadingInt` over the leading digit run
(the caller passes exactly the digits Go's loop would consume, i.e. the
maximal digit prefix); `.error` on uint64 overflow, with Go's checks in
Go's order. -/
def durIntVal (x : Nat) : List Char → Except Unit Nat
  | [] => .ok x
  | c :: rest =>
    if x > 2 ^ 63 / 10 then .error ()
    else
      let x1 := x * 10 + (c.toNat - 48)
      if x1 > 2 ^ 63 then .error ()
      else durIntVal x1 rest

/-- Value accumulation of time's `leadingFraction` over the fractional
digit run: digits past the overflow point are consumed but ignored, and
`scale` counts a factor of 10 per accumulated digit.  (Go keeps `scale` in
a float64; the properties verified here never involve a fractional
duration, so the exact integer scale is used.) -/
def durFracVal (x scale : Nat) (overflow : Bool) : List Char → Nat × Nat
  | [] => (x, scale)
  | c :: rest =>
    if overflow then durFracVal x scale overflow rest
    else if x > (2 ^ 63 - 1) / 10 then durFracVal x scale true rest
    else
      let y := x * 10 + (c.toNat - 48)
      if y > 2 ^ 63 then durFracVal x scale true rest
      else durFracVal y (scale * 10) overflow rest

/-- time's `unitMap`: nanoseconds per unit token. -/
def goUnitMap (u : String) : Option Nat :=
  if u = "ns" then some 1
  else if u = "us" then some 1000
  else if u = "µs" then some 1000
  else if u = "μs" then some 1000
  else if u = "ms" then some 1000000
  else if u = "s" then some 1000000000
  else if u = "m" then some 60000000000
  else if u = "h" then some 3600000000000
  else none

/-- "time: invalid duration" error text. -/
def durErrInvalid (orig : String) : String :=
  "time: invalid duration " ++ goQuote orig

/-- A unit-token character: anything that is not a digit and not a dot. -/
def isUnitChar (c : Char) : Bool :=
  ¬(c = '.' ∨ isDigit c)

/-- The optional-fraction step of a duration segment (`(\\.[0-9]*)?`):
on a leading dot, consume it and the following digit run, returning the
accumulated fraction, its scale, the remaining suffix and whether any
fraction digit was consumed; otherwise leave the input untouched. -/
def durFracStep (s1 : List Char) : Nat × Nat × List Char × Bool :=
  match s1 with
  | '.' :: s1' =>
    let fracDigits := s1'.takeWhile isDigit
    let fs := durFracVal 0 1 false fracDigits
    (fs.1, fs.2, s1'.dropWhile isDigit, !fracDigits.isEmpty)
  | _ => ((0 : Nat), (1 : Nat), s1, false)

/-- The segment loop of `time.ParseDuration`: repeatedly consume
`[0-9]*(\\.[0-9]*)?<unit>` and add the segment's nanoseconds into `d`, with
Go's overflow checks.  Go's `leadingInt`/`leadingFraction` suffix returns
are expressed as `takeWhile`/`dropWhile` over the digit class, which is
the exact set of characters Go's loops consume.  The `fuel` argument only
makes the recursion structural: every iteration consumes at least the unit
token (one char or more), so `fuel = l.length` never runs out — the
fuel-exhausted branch (which can only be reached with fuel below the list
length) is dead code.  (The fractional contribution,
`float64(f) * (float64(unit)/scale)` in Go, is taken as the integer
`f * unit / scale`; the two agree on every duration any verified property
evaluates, none of which is fractional.) -/
def durLoopF (orig : String) : Nat → Nat → List Char → Except String Nat
  | _, d, [] => .ok d
  | 0, _, _ :: _ => .error (durErrInvalid orig)
  | fuel + 1, d, c :: rest =>
    if ¬(c = '.' ∨ isDigit c) then .error (durErrInvalid orig)
    else
      let intDigits := (c :: rest).takeWhile isDigit
      let s1 := (c :: rest).dropWhile isDigit
      match durIntVal 0 intDigits with
      | .error _ => .error (durErrInvalid orig)
      | .ok v =>
        let pre := !intDigits.isEmpty
        let fracStep := durFracStep s1
        let f := fracStep.1
        let scale := fracStep.2.1
        let s2 := fracStep.2.2.1
        let post := fracStep.2.2.2
        if pre = false ∧ post = false then .error (durErrInvalid orig)
        else
          let u := s2.takeWhile isUnitChar
          let s3 := s2.dropWhile isUnitChar
          if u = [] then .error ("time: missing unit in duration " ++ goQuote orig)
          else
            match goUnitMap (String.mk u) with
            | none => .error ("time: unknown unit " ++ goQuote (String.mk u) ++
                " in duration " ++ goQuote orig)
            | some unit =>
              if v > 2 ^ 63 / unit then .error (durErrInvalid orig)
              else
                let v1 := v * unit
                let v2 := if f > 0 then v1 + f * unit / scale else v1
                if f > 0 ∧ v2 > 2 ^ 63 then .error (durErrInvalid orig)
                else
                  let d2 := d + v2
                  if d2 > 2 ^ 63 then .error (durErrInvalid orig)
                  else durLoopF orig fuel d2 s3

/-- The segment loop at its intended fuel. -/
def durLoop (orig : String) (d : Nat) (l : List Char) : Except String Nat :=
  durLoopF orig l.length d l

/-- `time.ParseDuration`: optional sign for the whole literal, the special
zero literal `"0"`, then the segment loop; the result is nanoseconds. -/
def goParseDuration (s : String) : Except String Int :=
  let (neg, l) :=
    match s.data with
    | '-' :: rest => (true, rest)
    | '+' :: rest => (false, rest)
    | l => (false, l)
  if l = ['0'] then .ok 0
  else if l = [] then .error (durErrInvalid s)
  else
    match durLoop s 0 l with
    | .error e => .error e
    | .ok d =>
      if neg then .ok (-(d : Int))
      else if d > 2 ^ 63 - 1 then .error (durErrInvalid s)
      else .ok (d : Int)

/-- The `result` struct of src/result.go: key (already prefixed), raw value
and the carried error.  (The `config` back-pointer is not modelled: no
`result` method reads it.) -/
structure GoResult where
  key : String
  value : String
  err : Option String
deriving Repr, DecidableEq

/-- `(*result).Required` (src/result.go lines 19-28). -/
def GoResult.Required (r : GoResult) : GoResult :=
  if r.err.isSome then r
  else if r.value = "" then
    { r with err := some ("environment variable " ++ r.key ++ " wajib diisi") }
  else r

/-- `(*result).Default` (src/result.go lines 31-40). -/
def GoResult.Default (r : GoResult) (defaultValue : String) : GoResult :=
  if r.err.isSome then r
  else if r.value = "" then { r with value := defaultValue }
  else r

/-- `(*result).String` (src/result.go lines 43-45). -/
def GoResult.Str (r : GoResult) : String :=
  r.value

/-- `(*result).Int` (src/result.go lines 48-58). -/
def GoResult.Int (r : GoResult) : Except String Int :=
  match r.err with
  | some e => .error e
  | none =>
    if r.value = "" then
      .error ("environment variable " ++ r.key ++ " tidak ditemukan")
    else goAtoi r.value

/-- `(*result).IntDefault` (src/result.go lines 61-67). -/
def GoResult.IntDefault (r : GoResult) (defaultValue : ℤ) : ℤ :=
  match r.Int with
  | .error _ => defaultValue
  | .ok v => v

/-- `(*result).Float64` (src/result.go lines 70-80). -/
def GoResult.Float64 (r : GoResult) : Except String GoFloat :=
  match r.err with
  | some e => .error e
  | none =>
    if r.value = "" then
      .error ("environment variable " ++ r.key ++ " tidak ditemukan")
    else goParseFloat r.value

/-- `(*result).Bool` (src/result.go lines 92-103): carried failure or empty
value give `false`; otherwise the lower-cased value is compared against the
truthy tokens.  Note: the raw value is NOT trimmed. -/
def GoResult.Bool (r : GoResult) : Bool :=
  if r.err.isSome then false
  else if r.value = "" then false
  else
    let v := goToLower r.value
    v = "true" ∨ v = "1" ∨ v = "yes" ∨ v = "y"

/-- `(*result).Duration` (src/result.go lines 114-124); nanoseconds. -/
def GoResult.Duration (r : GoResult) : Except String ℤ :=
  match r.err with
  | some e => .error e
  | none =>
    if r.value = "" then
      .error ("environment variable " ++ r.key ++ " tidak ditemukan")
    else goParseDuration r.value

/-- `(*result).Slice` (src/result.go lines 136-156): split on the delimiter
(`","` when empty) and trim white space from every element. -/
def GoResult.Slice (r : GoResult) (delimiter : String) : List String :=
  if r.err.isSome then []
  else if r.value = "" then []
  else
    let d := if delimiter = "" then "," else delimiter
    (goSplit r.value d).map goTrimSpace

/-- Go map insertion on an association list: replace the binding in place
when the key is present, append otherwise.  Keys stay unique, so two Go
maps are equal exactly when the lists built this way are equal (both
parsers insert in the same entry order). -/
def assocUpsert (l : List (String × String)) (k v : String) :
    List (String × String) :=
  match l with
  | [] => [(k, v)]
  | (k0, v0) :: rest =>
    if k0 = k then (k, v) :: rest else (k0, v0) :: assocUpsert rest k v

/-- `(*result).Map` (src/result.go lines 167-189): split on `","`, split
each entry at the first `":"`, trim key and value, drop colonless entries;
duplicate keys overwrite (last wins). -/
def GoResult.Map (r : GoResult) : List (String × String) :=
  if r.err.isSome then []
  else if r.value = "" then []
  else
    (goSplit r.value ",").foldl
      (fun acc part =>
        match goSplitN2 part ":" with
        | [k, v] => assocUpsert acc (goTrimSpace k) (goTrimSpace v)
        | _ => acc)
      []

/-- The declared type of a struct field as the populator's type switch in
src/unnamed/part_008 distinguishes it: the reflect kinds it dispatches on,
with `time.Duration` kept apart from a plain `int64` (the code separates
them by a type-identity test inside the integer case), string slices and
string-to-string maps apart from other slices/maps, and a catch-all for
every other kind (named by Go's `Kind.String()` rendering, used only in
the error message). -/
inductive GoFieldType where
  | tString
  | tInt
  | tInt8
  | tInt16
  | tInt32
  | tInt64
  | tDuration
  | tUint
  | tUint8
  | tUint16
  | tUint32
  | tUint64
  | tFloat32
  | tFloat64
  | tBool
  | tSliceString
  | tSliceOther (elemKindName : String)
  | tMapStringString
  | tMapOther (keyKindName valKindName : String)
  | tOther (kindName : String)
deriving Repr, DecidableEq

/-- Bit width stored by `reflect.Value.SetInt` for each signed-integer
kind (`int` is 64-bit on the platforms the repository targets). -/
def GoFieldType.intBits : GoFieldType → Nat
  | .tInt8 => 8
  | .tInt16 => 16
  | .tInt32 => 32
  | _ => 64

/-- Bit width stored by `reflect.Value.SetUint` for each unsigned kind. -/
def GoFieldType.uintBits : GoFieldType → Nat
  | .tUint8 => 8
  | .tUint16 => 16
  | .tUint32 => 32
  | _ => 64

/-- The value a populated field holds.  Floats are kept in the symbolic
pre-rounding form ([GoFloat]) tagged with the declared width: Go's
`reflect.Value.SetFloat` on a float32 field performs a rounding
`float32(x)` conversion, which never fails, so the width tag records
everything the verified properties need. -/
inductive FieldVal where
  | vString (s : String)
  | vInt (v : ℤ)
  | vDuration (ns : ℤ)
  | vUint (v : Nat)
  | vFloat (f : GoFloat) (bits : Nat)
  | vBool (b : Bool)
  | vSlice (l : List String)
  | vMap (m : List (String × String))
deriving Repr, DecidableEq

/-- Outcome of a Go computation that can set a value, return an error, or
panic.  The panic constructor models the `reflect` setters' panic on an
unsettable value; keeping it as an explicit outcome is what makes the
"never panics" statements below meaningful. -/
inductive GoOutcome (α : Type) where
  | ok (a : α)
  | err (e : String)
  | panicked (msg : String)
deriving Repr, DecidableEq

/-- Two's-complement wrap of an integer into `bits` bits: the conversion
`intN(x)` performed by `reflect.Value.SetInt` (Go truncates silently; it
does not panic or error on overflow of a narrower field). -/
def wrapInt (bits : Nat) (x : ℤ) : ℤ :=
  (x + 2 ^ (bits - 1)) % 2 ^ bits - 2 ^ (bits - 1)

/-- `uintN(x)`: the truncating conversion performed by
`reflect.Value.SetUint`. -/
def wrapUint (bits : Nat) (x : Nat) : Nat :=
  x % 2 ^ bits

/-- `reflect.Value.SetString`: panics when the value is not settable. -/
def goSetString (canSet : Bool) (s : String) : GoOutcome FieldVal :=
  if canSet then .ok (.vString s)
  else .panicked "reflect: reflect.Value.SetString using unaddressable value"

/-- `reflect.Value.SetInt` on a `bits`-wide signed field: truncating
store, panic when not settable. -/
def goSetInt (canSet : Bool) (bits : Nat) (x : ℤ) : GoOutcome FieldVal :=
  if canSet then .ok (.vInt (wrapInt bits x))
  else .panicked "reflect: reflect.Value.SetInt using unaddressable value"

/-- `reflect.Value.SetUint` on a `bits`-wide unsigned field. -/
def goSetUint (canSet : Bool) (bits : Nat) (x : Nat) : GoOutcome FieldVal :=
  if canSet then .ok (.vUint (wrapUint bits x))
  else .panicked "reflect: reflect.Value.SetUint using unaddressable value"

/-- `reflect.Value.Set`/`SetFloat`/`SetBool`/... for the remaining cases:
store the given value, panic when not settable. -/
def goSetVal (canSet : Bool) (v : FieldVal) : GoOutcome FieldVal :=
  if canSet then .ok v
  else .panicked "reflect: reflect.Value.Set using unaddressable value"

/-- `setFieldValue` (src/unnamed/part_008 lines 61-139): the populator's
type switch.  Signed integers detect `time.Duration` and switch to the
duration grammar; integers parse via `strconv.ParseInt(value, 10, 64)` and
are stored with the truncating `SetInt`; unsigned via `ParseUint`; floats
via `ParseFloat(value, 64)`; booleans compare the lower-cased value with
the truthy set and never fail; string slices split on `","` and trim each
element; string maps split entries on `","` and each entry at the first
`":"`; every other type is an unsupported-type error. -/
def setFieldValue (t : GoFieldType) (canSet : Bool) (value : String) :
    GoOutcome FieldVal :=
  match t with
  | .tString => goSetString canSet value
  | .tInt | .tInt8 | .tInt16 | .tInt32 | .tInt64 =>
    match goParseInt64 value with
    | .error e => .err ("invalid integer value: " ++ e)
    | .ok n => goSetInt canSet t.intBits n
  | .tDuration =>
    match goParseDuration value with
    | .error e => .err ("invalid duration value: " ++ e)
    | .ok d => goSetVal canSet (.vDuration d)
  | .tUint | .tUint8 | .tUint16 | .tUint32 | .tUint64 =>
    match goParseUint64 value with
    | .error e => .err ("invalid unsigned integer value: " ++ e)
    | .ok n => goSetUint canSet t.uintBits n
  | .tFloat32 =>
    match goParseFloat value with
    | .error e => .err ("invalid float value: " ++ e)
    | .ok f => goSetVal canSet (.vFloat f 32)
  | .tFloat64 =>
    match goParseFloat value with
    | .error e => .err ("invalid float value: " ++ e)
    | .ok f => goSetVal canSet (.vFloat f 64)
  | .tBool =>
    let v := goToLower value
    goSetVal canSet (.vBool (v = "true" ∨ v = "1" ∨ v = "yes" ∨ v = "y"))
  | .tSliceString =>
    goSetVal canSet (.vSlice ((goSplit value ",").map goTrimSpace))
  | .tSliceOther ek => .err ("unsupported slice type: " ++ ek)
  | .tMapStringString =>
    goSetVal canSet (.vMap
      ((goSplit value ",").foldl
        (fun acc part =>
          match goSplitN2 part ":" with
          | [k, v] => assocUpsert acc (goTrimSpace k) (goTrimSpace v)
          | _ => acc)
        []))
  | .tMapOther kk vk =>
    .err ("unsupported map type: map[" ++ kk ++ "]" ++ vk)
  | .tOther kindName => .err ("unsupported type: " ++ kindName)

/-- Per-field metadata the populator reads via reflection: declared field
name, the `env` tag (empty means absent), the `default` tag (empty means
absent — Go's `Tag.Get` cannot distinguish the two), the declared type and
settability (exported fields are settable). -/
structure FieldSpec where
  name : String
  envTag : String
  defaultTag : String
  type : GoFieldType
  canSet : Bool
deriving Repr, DecidableEq

/-- A struct field: its metadata and current value (`FieldVal`, starting
at the Go zero value of its type; `Parse` leaves it untouched when the
field is skipped). -/
structure GoField where
  spec : FieldSpec
  val : FieldVal
deriving Repr, DecidableEq

/-- The process environment as resolved by `os.Getenv`: total, with `""`
meaning the variable is unset. -/
abbrev GoGetenv := String → String

/-- The `Config` receiver (only `Prefix` is read by the modelled code). -/
structure Config where
  Mode : String
  Prefix : String
deriving Repr, DecidableEq

/-- `(*Config).prependPrefix`: prefix the key when a prefix is set. -/
def Config.prefixedKey (c : Config) (key : String) : String :=
  if c.Prefix = "" then key else c.Prefix ++ key

/-- The lookup key of a field: the `env` tag, or the upper-cased field
name when the tag is absent/empty (src/unnamed/part_008 lines 27-31). -/
def FieldSpec.lookupKey (f : FieldSpec) : String :=
  if f.envTag = "" then goToUpper f.name else f.envTag

/-- The working value of a field (src/unnamed/part_008 lines 37-44): the
environment value at the prefixed lookup key, or the `default` tag when
the environment value is empty and the tag is non-empty. -/
def resolveValue (c : Config) (env : GoGetenv) (f : FieldSpec) : String :=
  let value := env (c.prefixedKey f.lookupKey)
  if value = "" ∧ f.defaultTag ≠ "" then f.defaultTag else value

/-- Outcome of a `Parse` call: success, an error return, or a panic.  In
each case the field list is the state of the target's fields at that
point (Go mutates the target in place; an error return keeps earlier
assignments). -/
inductive ParseOutcome where
  | done (fields : List GoField)
  | failed (fields : List GoField) (msg : String)
  | panicked (fields : List GoField) (msg : String)
deriving Repr, DecidableEq

/-- Prepend an (already-final) field to the outcome's field state. -/
def ParseOutcome.consField (f : GoField) : ParseOutcome → ParseOutcome
  | .done fs => .done (f :: fs)
  | .failed fs m => .failed (f :: fs) m
  | .panicked fs m => .panicked (f :: fs) m

/-- The field loop of `(*Config).Parse` (src/unnamed/part_008 lines
22-55): per field, skip when not settable, resolve the working value,
skip when it is still empty, otherwise coerce via `setFieldValue`; on a
coercion error stop at once with
`failed to set field <name>: <cause>`, leaving the failing field and all
later fields untouched. -/
def parseFields (c : Config) (env : GoGetenv) : List GoField → ParseOutcome
  | [] => .done []
  | f :: rest =>
    if f.spec.canSet = false then (parseFields c env rest).consField f
    else
      let value := resolveValue c env f.spec
      if value = "" then (parseFields c env rest).consField f
      else
        match setFieldValue f.spec.type f.spec.canSet value with
        | .ok v => (parseFields c env rest).consField { f with val := v }
        | .err e =>
          .failed (f :: rest) ("failed to set field " ++ f.spec.name ++ ": " ++ e)
        | .panicked m => .panicked (f :: rest) m

/-- The reflect kinds `Parse`'s shape test inspects. -/
inductive GoKind where
  | ptr
  | structK
  | invalid
  | otherK (name : String)
deriving Repr, DecidableEq

/-- The shapes an argument to `Parse` can take: a pointer to a struct
(carrying its fields), a typed nil struct pointer (`Elem()` of a nil
pointer is the zero `Value`, kind `Invalid`), a nil interface
(`reflect.ValueOf(nil)` has kind `Invalid`), a non-pointer (carrying the
fields of the struct when one was passed by value), a pointer to a
non-struct, and a pointer to a pointer (carrying the inner struct's
fields). -/
inductive ParseArg where
  | ptrToStruct (fields : List GoField)
  | nilStructPtr
  | nilInterface
  | nonPtr (kindName : String) (fields : List GoField)
  | ptrToNonStruct (elemKindName : String)
  | ptrToPtr (inner : List GoField)
deriving Repr, DecidableEq

/-- `reflect.ValueOf(v).Kind()` for each argument shape. -/
def ParseArg.kind : ParseArg → GoKind
  | .ptrToStruct _ => .ptr
  | .nilStructPtr => .ptr
  | .nilInterface => .invalid
  | .nonPtr k _ => .otherK k
  | .ptrToNonStruct _ => .ptr
  | .ptrToPtr _ => .ptr

/-- `reflect.ValueOf(v).Elem().Kind()` for each pointer shape (Go only
evaluates this when the kind is `Ptr`, via the short-circuit `||`). -/
def ParseArg.elemKind : ParseArg → GoKind
  | .ptrToStruct _ => .structK
  | .nilStructPtr => .invalid
  | .ptrToNonStruct k => .otherK k
  | .ptrToPtr _ => .ptr
  | _ => .invalid

/-- The fields of any record reachable from the argument (what could be
mutated); empty for shapes that hold no record. -/
def ParseArg.argFields : ParseArg → List GoField
  | .ptrToStruct fs => fs
  | .nonPtr _ fs => fs
  | .ptrToPtr fs => fs
  | _ => []

/-- `(*Config).Parse` (src/unnamed/part_008 lines 13-58): reject any
argument that is not a pointer to a struct before touching any field,
then run the field loop. -/
def Config.Parse (c : Config) (env : GoGetenv) (arg : ParseArg) : ParseOutcome :=
  if arg.kind = GoKind.ptr ∧ arg.elemKind = GoKind.structK then
    parseFields c env arg.argFields
  else .failed arg.argFields "expect pointer to struct"

/-- The field types the populator's type switch supports (every branch of
the switch in src/unnamed/part_008 except the unsupported-type errors). -/
def supportedKinds : List GoFieldType :=
  [.tString, .tInt, .tInt8, .tInt16, .tInt32, .tInt64, .tDuration,
   .tUint, .tUint8, .tUint16, .tUint32, .tUint64,
   .tFloat32, .tFloat64, .tBool, .tSliceString, .tMapStringString]

/-- The field types whose coercion parses a numeric or duration literal
strictly (no trimming): the signed, unsigned, float and duration cases. -/
def strictNumericKinds : List GoFieldType :=
  [.tInt, .tInt8, .tInt16, .tInt32, .tInt64, .tDuration,
   .tUint, .tUint8, .tUint16, .tUint32, .tUint64, .tFloat32, .tFloat64]

/-- C1 (amended): for every `result` with no carried failure, `Bool()`
returns `true` exactly when the lower-cased raw value — with NO whitespace
trimming — is one of `"true"`, `"1"`, `"yes"`, `"y"`; it is total and
never errors, and a truthy token surrounded by whitespace therefore yields
`false`. -/
theorem C1_bool_lowercase_untrimmed (r : GoResult) (h : r.err = none) :
    r.Bool = true ↔
      (goToLower r.value = "true" ∨ goToLower r.value = "1" ∨
       goToLower r.value = "yes" ∨ goToLower r.value = "y") := by
  unfold GoResult.Bool
  rw [h]
  by_cases hv : r.value = ""
  · rw [hv]
    decide
  · simp [hv]

/-- C1 witness: `"TRUE"` is truthy under the amended statement. -/
theorem C1_bool_lowercase_untrimmed_witness :
    (GoResult.mk "K" "TRUE" none).Bool = true :=
  (C1_bool_lowercase_untrimmed (GoResult.mk "K" "TRUE" none) rfl).mpr (by decide)

/-- C1 counterexample: the claim says the trimmed lower-cased value is
compared, so `" true "` would be truthy; the code does not trim, and
`Bool()` on `" true "` is `false` even though trimming and lower-casing
yields `"true"`. -/
theorem C1_trimmed_counterexample :
    (GoResult.mk "K" " true " none).Bool = false ∧
    goToLower (goTrimSpace " true ") = "true" := by decide

/-- C3: once a `result` carries a failure, neither `Required` nor
`Default` mutates it (value and failure are untouched); and for an empty
raw value with no carried failure, `Required()` then `Default(d)` leaves
the value empty and keeps the required-failure, whose message names the
key. -/
theorem C3_sticky_failure :
    (∀ (r : GoResult) (e defaultValue : String), r.err = some e →
        r.Required = r ∧ r.Default defaultValue = r) ∧
    (∀ (key defaultValue : String),
        (((GoResult.mk key "" none).Required).Default defaultValue).value = "" ∧
        (((GoResult.mk key "" none).Required).Default defaultValue).err =
          some ("environment variable " ++ key ++ " wajib diisi")) := by
  constructor
  · intro r e d h
    constructor
    · unfold GoResult.Required
      rw [h]
      simp
    · unfold GoResult.Default
      rw [h]
      simp
  · intro key d
    simp [GoResult.Required, GoResult.Default]

/-- C3 witness: a carried failure makes `Default` a no-op, and
`Required()` then `Default("9")` on an absent `PORT` keeps the
required-failure naming `PORT`. -/
theorem C3_sticky_failure_witness :
    (GoResult.mk "K" "v" (some "boom")).Default "d" =
      GoResult.mk "K" "v" (some "boom") ∧
    (((GoResult.mk "PORT" "" none).Required).Default "9").err =
      some ("environment variable PORT wajib diisi") :=
  ⟨(C3_sticky_failure.1 (GoResult.mk "K" "v" (some "boom")) "boom" "d" rfl).2,
   (C3_sticky_failure.2 "PORT" "9").2⟩

/-- C5: `IntDefault(d)` returns `d` exactly when `Int()` errors (carried
failure, empty value, or unparsable value) and the parsed value when
`Int()` succeeds; in particular a non-numeric string substituted by a
prior `Default(s)` call fails to parse and `IntDefault` falls back to its
own argument. -/
theorem C5_intdefault :
    (∀ (r : GoResult) (d : ℤ),
        (∀ e, r.Int = .error e → r.IntDefault d = d) ∧
        (∀ v, r.Int = .ok v → r.IntDefault d = v)) ∧
    (∀ (key s : String) (d : ℤ) (e : String), goAtoi s = .error e →
        ((GoResult.mk key "" none).Default s).IntDefault d = d) := by
  constructor
  · intro r d
    constructor
    · intro e h
      unfold GoResult.IntDefault
      rw [h]
    · intro v h
      unfold GoResult.IntDefault
      rw [h]
  · intro key s d e h
    by_cases hs : s = ""
    · subst hs
      simp [GoResult.Default, GoResult.IntDefault, GoResult.Int]
    · simp [GoResult.Default, GoResult.IntDefault, GoResult.Int, hs, h]

/-- C5 witness: `Default("abc")` then `IntDefault(7)` yields `7`; a
parsable value ignores the fallback. -/
theorem C5_intdefault_witness :
    ((GoResult.mk "K" "" none).Default "abc").IntDefault 7 = 7 ∧
    (GoResult.mk "K" "42" none).IntDefault 7 = 42 :=
  ⟨C5_intdefault.2 "K" "abc" 7
      ("strconv.Atoi: parsing " ++ goQuote "abc" ++ ": invalid syntax") (by decide),
   (C5_intdefault.1 (GoResult.mk "K" "42" none) 7).2 42 (by decide)⟩

/-- C8: `Slice` returns `[]` on a carried failure or empty value; else it
splits the value on the delimiter (`","` when the delimiter is empty) and
trims whitespace from every element, preserving quote characters and
empty elements from consecutive delimiters; in particular
`Slice(",")` on `" a , b , c "` is `["a","b","c"]`, on `"a,,c"` is
`["a","","c"]`, and on `""` is `[]`. -/
theorem C8_slice :
    (∀ (r : GoResult) (delimiter : String), r.err.isSome → r.Slice delimiter = []) ∧
    (∀ (r : GoResult) (delimiter : String), r.value = "" → r.Slice delimiter = []) ∧
    (∀ (r : GoResult) (delimiter : String), r.err = none → r.value ≠ "" →
        r.Slice delimiter =
          (goSplit r.value (if delimiter = "" then "," else delimiter)).map goTrimSpace) ∧
    (GoResult.mk "K" " a , b , c " none).Slice "," = ["a", "b", "c"] ∧
    (GoResult.mk "K" "a,,c" none).Slice "," = ["a", "", "c"] ∧
    (GoResult.mk "K" "" none).Slice "," = [] ∧
    (GoResult.mk "K" " \"a\" ,b" none).Slice "," = ["\"a\"", "b"] := by
  refine ⟨?_, ?_, ?_, by decide, by decide, by decide, by decide⟩
  · intro r d h
    unfold GoResult.Slice
    simp [h]
  · intro r d h
    unfold GoResult.Slice
    simp [h]
  · intro r d h hv
    unfold GoResult.Slice
    simp [h, hv]

/-- C8 witness: carried failure gives `[]`; a custom delimiter follows the
split-and-trim pipeline. -/
theorem C8_slice_witness :
    (GoResult.mk "K" "v" (some "boom")).Slice "," = [] ∧
    (GoResult.mk "K" "x; y" none).Slice ";" = (goSplit "x; y" ";").map goTrimSpace :=
  ⟨C8_slice.1 (GoResult.mk "K" "v" (some "boom")) "," rfl,
   C8_slice.2.2.1 (GoResult.mk "K" "x; y" none) ";" rfl (by decide)⟩

/-- C9: `Map` returns the empty mapping on a carried failure or empty
value; else it splits the value on `","`, splits each entry at the first
`":"` (values may contain colons), trims key and value, drops colonless
entries, and lets the last occurrence of a repeated key win. -/
theorem C9_map :
    (∀ r : GoResult, r.err.isSome → r.Map = []) ∧
    (∀ r : GoResult, r.value = "" → r.Map = []) ∧
    (∀ r : GoResult, r.err = none → r.value ≠ "" →
        r.Map = (goSplit r.value ",").foldl
          (fun acc part =>
            match goSplitN2 part ":" with
            | [k, v] => assocUpsert acc (goTrimSpace k) (goTrimSpace v)
            | _ => acc) []) ∧
    (GoResult.mk "K" "key1:value1,key2:value2" none).Map =
      [("key1", "value1"), ("key2", "value2")] ∧
    (GoResult.mk "K" "key1:,key2:value2" none).Map =
      [("key1", ""), ("key2", "value2")] ∧
    (GoResult.mk "K" "k1,k2:v2" none).Map = [("k2", "v2")] ∧
    (GoResult.mk "K" "k1:v1,k1:v2" none).Map = [("k1", "v2")] ∧
    (GoResult.mk "K" "a:b:c" none).Map = [("a", "b:c")] ∧
    (GoResult.mk "K" " k : v " none).Map = [("k", "v")] := by
  refine ⟨?_, ?_, ?_, by decide, by decide, by decide, by decide, by decide, by decide⟩
  · intro r h
    unfold GoResult.Map
    simp [h]
  · intro r h
    unfold GoResult.Map
    simp [h]
  · intro r h hv
    unfold GoResult.Map
    simp [h, hv]

/-- C9 witness: carried failure gives the empty mapping; a non-empty value
follows the entry-splitting pipeline. -/
theorem C9_map_witness :
    (GoResult.mk "K" "a:b" (some "boom")).Map = [] ∧
    (GoResult.mk "K" "a:b" none).Map =
      (goSplit "a:b" ",").foldl
        (fun acc part =>
          match goSplitN2 part ":" with
          | [k, v] => assocUpsert acc (goTrimSpace k) (goTrimSpace v)
          | _ => acc) [] :=
  ⟨C9_map.1 (GoResult.mk "K" "a:b" (some "boom")) rfl,
   C9_map.2.2.1 (GoResult.mk "K" "a:b" none) rfl (by decide)⟩

/-- C4 (amended): the populator's boolean and map coercions produce
exactly the accessor engine's `Bool()` and `Map()` results on a
failure-free `result` holding the same value, for every raw value
including the empty string; the list coercion produces exactly
`Slice(",")` for every NON-EMPTY raw value (on the empty string the
populator's split yields `[""]` while `Slice` returns `[]` — a value the
populator never coerces, since `Parse` skips fields whose working value is
empty). -/
theorem C4_populator_accessor_agree :
    (∀ (key v : String),
        setFieldValue .tBool true v = .ok (.vBool ((GoResult.mk key v none).Bool))) ∧
    (∀ (key v : String), v ≠ "" →
        setFieldValue .tSliceString true v =
          .ok (.vSlice ((GoResult.mk key v none).Slice ","))) ∧
    (∀ (key v : String),
        setFieldValue .tMapStringString true v =
          .ok (.vMap ((GoResult.mk key v none).Map))) := by
  refine ⟨?_, ?_, ?_⟩
  · intro key v
    by_cases hv : v = ""
    · subst hv
      simp [setFieldValue, goSetVal, GoResult.Bool, goToLower]
    · simp [setFieldValue, goSetVal, GoResult.Bool, hv]
  · intro key v hv
    simp [setFieldValue, goSetVal, GoResult.Slice, hv]
  · intro key v
    by_cases hv : v = ""
    · subst hv
      simp [setFieldValue, goSetVal, GoResult.Map, goSplit, goSplitCore, goSplitN2, goSplitN2Core]
    · simp [setFieldValue, goSetVal, GoResult.Map, hv]

/-- C4 witness: boolean, list and map coercions agree with the accessor on
a concrete non-empty value. -/
theorem C4_populator_accessor_agree_witness :
    setFieldValue .tBool true "Yes" =
      .ok (.vBool ((GoResult.mk "K" "Yes" none).Bool)) ∧
    setFieldValue .tSliceString true " a ,b" =
      .ok (.vSlice ((GoResult.mk "K" " a ,b" none).Slice ",")) ∧
    setFieldValue .tMapStringString true "a:1, b:2" =
      .ok (.vMap ((GoResult.mk "K" "a:1, b:2" none).Map)) :=
  ⟨C4_populator_accessor_agree.1 "K" "Yes",
   C4_populator_accessor_agree.2.1 "K" " a ,b" (by decide),
   C4_populator_accessor_agree.2.2 "K" "a:1, b:2"⟩

/-- C4 counterexample: at the empty raw value the populator's list
coercion and the accessor's `Slice(",")` differ (`[""]` versus `[]`), so
the claim's "for every raw string value" fails for the list coercion. -/
theorem C4_empty_value_counterexample :
    setFieldValue .tSliceString true "" = .ok (.vSlice [""]) ∧
    (GoResult.mk "K" "" none).Slice "," = [] ∧
    ([""] : List String) ≠ [] := by decide

/-- C6: a non-empty resolved environment value takes priority over the
`default` tag; when the environment value is empty and the tag is
non-empty the tag becomes the working value; a field whose working value
is still empty is skipped unchanged without error; concretely, a field
tagged `env:"X" default:"8080"` becomes 8080 with no environment value
and 9000 when the environment supplies `X=9000`. -/
theorem C6_default_priority :
    (∀ (c : Config) (env : GoGetenv) (f : FieldSpec),
        env (c.prefixedKey f.lookupKey) ≠ "" →
        resolveValue c env f = env (c.prefixedKey f.lookupKey)) ∧
    (∀ (c : Config) (env : GoGetenv) (f : FieldSpec),
        env (c.prefixedKey f.lookupKey) = "" → f.defaultTag ≠ "" →
        resolveValue c env f = f.defaultTag) ∧
    (∀ (c : Config) (env : GoGetenv) (f : GoField) (rest : List GoField),
        resolveValue c env f.spec = "" →
        parseFields c env (f :: rest) = (parseFields c env rest).consField f) ∧
    (Config.mk "production" "").Parse (fun _ => "")
        (.ptrToStruct [⟨⟨"Port", "X", "8080", .tInt, true⟩, .vInt 0⟩]) =
      .done [⟨⟨"Port", "X", "8080", .tInt, true⟩, .vInt 8080⟩] ∧
    (Config.mk "production" "").Parse (fun k => if k = "X" then "9000" else "")
        (.ptrToStruct [⟨⟨"Port", "X", "8080", .tInt, true⟩, .vInt 0⟩]) =
      .done [⟨⟨"Port", "X", "8080", .tInt, true⟩, .vInt 9000⟩] := by
  refine ⟨?_, ?_, ?_, by decide, by decide⟩
  · intro c env f h
    unfold resolveValue
    simp [h]
  · intro c env f h hd
    unfold resolveValue
    simp [h, hd]
  · intro c env f rest h
    by_cases hset : f.spec.canSet = false
    · simp [parseFields, hset]
    · simp [parseFields, hset, h]

/-- C6 witness: the three universal parts applied at a concrete field
(tag key `X`, default `8080`). -/
theorem C6_default_priority_witness :
    resolveValue (Config.mk "production" "") (fun k => if k = "X" then "9000" else "")
      ⟨"Port", "X", "8080", .tInt, true⟩ = "9000" ∧
    resolveValue (Config.mk "production" "") (fun _ => "")
      ⟨"Port", "X", "8080", .tInt, true⟩ = "8080" ∧
    parseFields (Config.mk "production" "") (fun _ => "")
        [⟨⟨"Skip", "X", "", .tInt, true⟩, .vInt 0⟩] =
      (parseFields (Config.mk "production" "") (fun _ => "") []).consField
        ⟨⟨"Skip", "X", "", .tInt, true⟩, .vInt 0⟩ :=
  ⟨C6_default_priority.1 (Config.mk "production" "")
      (fun k => if k = "X" then "9000" else "")
      ⟨"Port", "X", "8080", .tInt, true⟩ (by decide),
   C6_default_priority.2.1 (Config.mk "production" "") (fun _ => "")
      ⟨"Port", "X", "8080", .tInt, true⟩ rfl (by decide),
   C6_default_priority.2.2.1 (Config.mk "production" "") (fun _ => "")
      ⟨⟨"Skip", "X", "", .tInt, true⟩, .vInt 0⟩ [] rfl⟩

/-- C7: `Parse` on any shape other than pointer-to-struct returns the
shape error with every field of any reachable record untouched; and when
a field coercion fails mid-iteration there is a cut index `i`: the fields
from `i` on (the failing one and all later ones) are exactly the input
fields, while the first `i` fields are what successfully processing that
prefix assigns (no rollback). -/
theorem C7_shape_error_and_partial_mutation :
    (∀ (c : Config) (env : GoGetenv) (arg : ParseArg),
        (∀ fs, arg ≠ ParseArg.ptrToStruct fs) →
        c.Parse env arg = .failed arg.argFields "expect pointer to struct") ∧
    (∀ (c : Config) (env : GoGetenv) (fs fs' : List GoField) (m : String),
        parseFields c env fs = .failed fs' m →
        ∃ i, i < fs.length ∧ fs'.drop i = fs.drop i ∧
          parseFields c env (fs.take i) = .done (fs'.take i)) := by
  constructor
  · intro c env arg h
    cases arg with
    | ptrToStruct fs => exact absurd rfl (h fs)
    | nilStructPtr => simp [Config.Parse, ParseArg.kind, ParseArg.elemKind]
    | nilInterface => simp [Config.Parse, ParseArg.kind, ParseArg.elemKind]
    | nonPtr k fs => simp [Config.Parse, ParseArg.kind, ParseArg.elemKind]
    | ptrToNonStruct k => simp [Config.Parse, ParseArg.kind, ParseArg.elemKind]
    | ptrToPtr fs => simp [Config.Parse, ParseArg.kind, ParseArg.elemKind]
  · intro c env fs
    induction fs with
    | nil =>
      intro fs' m h
      simp [parseFields] at h
    | cons f rest ih =>
      intro fs' m h
      rw [parseFields] at h
      by_cases hset : f.spec.canSet = false
      · rw [if_pos hset] at h
        cases hrec : parseFields c env rest with
        | done fs2 => rw [hrec] at h; simp [ParseOutcome.consField] at h
        | panicked fs2 m2 => rw [hrec] at h; simp [ParseOutcome.consField] at h
        | failed fs2 m2 =>
          rw [hrec] at h
          simp only [ParseOutcome.consField, ParseOutcome.failed.injEq] at h
          obtain ⟨hfs', hm⟩ := h
          obtain ⟨i, hi, hdrop, htake⟩ := ih fs2 m2 hrec
          refine ⟨i + 1, by simpa using hi, ?_, ?_⟩
          · rw [← hfs']
            simpa using hdrop
          · rw [← hfs']
            simp only [List.take_succ_cons]
            rw [parseFields, if_pos hset, htake]
            rfl
      · rw [if_neg hset] at h
        simp only at h
        by_cases hval : resolveValue c env f.spec = ""
        · rw [if_pos hval] at h
          cases hrec : parseFields c env rest with
          | done fs2 => rw [hrec] at h; simp [ParseOutcome.consField] at h
          | panicked fs2 m2 => rw [hrec] at h; simp [ParseOutcome.consField] at h
          | failed fs2 m2 =>
            rw [hrec] at h
            simp only [ParseOutcome.consField, ParseOutcome.failed.injEq] at h
            obtain ⟨hfs', hm⟩ := h
            obtain ⟨i, hi, hdrop, htake⟩ := ih fs2 m2 hrec
            refine ⟨i + 1, by simpa using hi, ?_, ?_⟩
            · rw [← hfs']
              simpa using hdrop
            · rw [← hfs']
              simp only [List.take_succ_cons]
              rw [parseFields, if_neg hset]
              simp only
              rw [if_pos hval, htake]
              rfl
        · rw [if_neg hval] at h
          cases hsfv : setFieldValue f.spec.type f.spec.canSet (resolveValue c env f.spec) with
          | ok v =>
            rw [hsfv] at h
            cases hrec : parseFields c env rest with
            | done fs2 => rw [hrec] at h; simp [ParseOutcome.consField] at h
            | panicked fs2 m2 => rw [hrec] at h; simp [ParseOutcome.consField] at h
            | failed fs2 m2 =>
              rw [hrec] at h
              simp only [ParseOutcome.consField, ParseOutcome.failed.injEq] at h
              obtain ⟨hfs', hm⟩ := h
              obtain ⟨i, hi, hdrop, htake⟩ := ih fs2 m2 hrec
              refine ⟨i + 1, by simpa using hi, ?_, ?_⟩
              · rw [← hfs']
                simpa using hdrop
              · rw [← hfs']
                simp only [List.take_succ_cons]
                rw [parseFields, if_neg hset]
                simp only
                rw [if_neg hval, hsfv, htake]
                rfl
          | err e =>
            rw [hsfv] at h
            simp only [ParseOutcome.failed.injEq] at h
            obtain ⟨hfs', hm⟩ := h
            refine ⟨0, by simp, ?_, ?_⟩
            · simp [← hfs']
            · simp [parseFields]
          | panicked m2 =>
            rw [hsfv] at h
            simp at h

/-- C7 witness: a pointer-to-pointer argument is rejected with its inner
fields untouched, and a failing second field keeps the first field's
assigned value while itself staying at its zero value. -/
theorem C7_shape_error_and_partial_mutation_witness :
    (Config.mk "production" "").Parse (fun _ => "")
        (.ptrToPtr [⟨⟨"Port", "X", "8080", .tInt, true⟩, .vInt 0⟩]) =
      .failed [⟨⟨"Port", "X", "8080", .tInt, true⟩, .vInt 0⟩]
        "expect pointer to struct" ∧
    (∃ i, i < 2 ∧
      ([⟨⟨"A", "A", "1", .tInt, true⟩, .vInt 1⟩,
        ⟨⟨"B", "B", "zz", .tInt, true⟩, .vInt 0⟩] : List GoField).drop i =
        ([⟨⟨"A", "A", "1", .tInt, true⟩, .vInt 0⟩,
          ⟨⟨"B", "B", "zz", .tInt, true⟩, .vInt 0⟩] : List GoField).drop i ∧
      parseFields (Config.mk "production" "") (fun _ => "")
          (([⟨⟨"A", "A", "1", .tInt, true⟩, .vInt 0⟩,
             ⟨⟨"B", "B", "zz", .tInt, true⟩, .vInt 0⟩] : List GoField).take i) =
        .done (([⟨⟨"A", "A", "1", .tInt, true⟩, .vInt 1⟩,
                 ⟨⟨"B", "B", "zz", .tInt, true⟩, .vInt 0⟩] : List GoField).take i)) :=
  ⟨C7_shape_error_and_partial_mutation.1 (Config.mk "production" "") (fun _ => "")
      (.ptrToPtr [⟨⟨"Port", "X", "8080", .tInt, true⟩, .vInt 0⟩])
      (fun fs => by simp),
   C7_shape_error_and_partial_mutation.2 (Config.mk "production" "") (fun _ => "")
      [⟨⟨"A", "A", "1", .tInt, true⟩, .vInt 0⟩,
       ⟨⟨"B", "B", "zz", .tInt, true⟩, .vInt 0⟩]
      [⟨⟨"A", "A", "1", .tInt, true⟩, .vInt 1⟩,
       ⟨⟨"B", "B", "zz", .tInt, true⟩, .vInt 0⟩]
      ("failed to set field B: invalid integer value: strconv.ParseInt: parsing " ++
        goQuote "zz" ++ ": invalid syntax")
      (by decide)⟩

/-- C2: for every supported field kind and every working value, the
field coercion either assigns a value or returns an error — with the
panic outcome of the reflect setters explicitly representable, no
settable-field coercion and no `parseFields` run ever panics; a
`parseFields` error names the failing field; and width-narrowing inputs
(an int8 field with `"300"`, a float32 field with a float64-only value)
are assigned by truncating/rounding conversion rather than panicking. -/
theorem C2_populate_safety :
    (∀ t ∈ supportedKinds, ∀ v : String,
        (∃ fv, setFieldValue t true v = .ok fv) ∨
        (∃ e, setFieldValue t true v = .err e)) ∧
    (∀ (t : GoFieldType) (v m : String), setFieldValue t true v ≠ .panicked m) ∧
    (∀ (c : Config) (env : GoGetenv) (fs fs2 : List GoField) (m : String),
        parseFields c env fs ≠ .panicked fs2 m) ∧
    (∀ (c : Config) (env : GoGetenv) (fs fs' : List GoField) (m : String),
        parseFields c env fs = .failed fs' m →
        ∃ f ∈ fs, ∃ cause,
          m = "failed to set field " ++ f.spec.name ++ ": " ++ cause) ∧
    setFieldValue .tInt8 true "300" = .ok (.vInt 44) ∧
    setFieldValue .tUint8 true "300" = .ok (.vUint 44) ∧
    (∃ fv, setFieldValue .tFloat32 true "3.4e39" = .ok fv) := by
  have hnp : ∀ (t : GoFieldType) (v m : String),
      setFieldValue t true v ≠ .panicked m := by
    intro t v m
    cases t <;> simp only [setFieldValue] <;> (try split) <;>
      simp [goSetString, goSetInt, goSetUint, goSetVal]
  have htrue : ∀ b : Bool, ¬b = false → b = true := by decide
  refine ⟨?_, hnp, ?_, ?_, by decide, by decide,
    ⟨.vFloat (.num ⟨false, 34, 38, false, false⟩) 32, by decide⟩⟩
  · intro t ht v
    cases hout : setFieldValue t true v with
    | ok fv => exact Or.inl ⟨fv, rfl⟩
    | err e => exact Or.inr ⟨e, rfl⟩
    | panicked m => exact absurd hout (hnp t v m)
  · intro c env fs
    induction fs with
    | nil =>
      intro fs2 m h
      simp [parseFields] at h
    | cons f rest ih =>
      intro fs2 m h
      rw [parseFields] at h
      by_cases hset : f.spec.canSet = false
      · rw [if_pos hset] at h
        cases hrec : parseFields c env rest with
        | done fsr => rw [hrec] at h; simp [ParseOutcome.consField] at h
        | failed fsr mr => rw [hrec] at h; simp [ParseOutcome.consField] at h
        | panicked fsr mr => exact ih fsr mr hrec
      · rw [if_neg hset] at h
        simp only at h
        by_cases hval : resolveValue c env f.spec = ""
        · rw [if_pos hval] at h
          cases hrec : parseFields c env rest with
          | done fsr => rw [hrec] at h; simp [ParseOutcome.consField] at h
          | failed fsr mr => rw [hrec] at h; simp [ParseOutcome.consField] at h
          | panicked fsr mr => exact ih fsr mr hrec
        · rw [if_neg hval] at h
          cases hsfv : setFieldValue f.spec.type f.spec.canSet
              (resolveValue c env f.spec) with
          | ok v =>
            rw [hsfv] at h
            cases hrec : parseFields c env rest with
            | done fsr => rw [hrec] at h; simp [ParseOutcome.consField] at h
            | failed fsr mr => rw [hrec] at h; simp [ParseOutcome.consField] at h
            | panicked fsr mr => exact ih fsr mr hrec
          | err e =>
            rw [hsfv] at h
            simp at h
          | panicked mp =>
            rw [htrue f.spec.canSet hset] at hsfv
            exact hnp _ _ _ hsfv
  · intro c env fs
    induction fs with
    | nil =>
      intro fs' m h
      simp [parseFields] at h
    | cons f rest ih =>
      intro fs' m h
      rw [parseFields] at h
      by_cases hset : f.spec.canSet = false
      · rw [if_pos hset] at h
        cases hrec : parseFields c env rest with
        | done fsr => rw [hrec] at h; simp [ParseOutcome.consField] at h
        | panicked fsr mr => rw [hrec] at h; simp [ParseOutcome.consField] at h
        | failed fsr mr =>
          rw [hrec] at h
          simp only [ParseOutcome.consField, ParseOutcome.failed.injEq] at h
          obtain ⟨i, hmem, cause, hc⟩ := ih fsr mr hrec
          exact ⟨i, List.mem_cons_of_mem f hmem, cause, h.2 ▸ hc⟩
      · rw [if_neg hset] at h
        simp only at h
        by_cases hval : resolveValue c env f.spec = ""
        · rw [if_pos hval] at h
          cases hrec : parseFields c env rest with
          | done fsr => rw [hrec] at h; simp [ParseOutcome.consField] at h
          | panicked fsr mr => rw [hrec] at h; simp [ParseOutcome.consField] at h
          | failed fsr mr =>
            rw [hrec] at h
            simp only [ParseOutcome.consField, ParseOutcome.failed.injEq] at h
            obtain ⟨i, hmem, cause, hc⟩ := ih fsr mr hrec
            exact ⟨i, List.mem_cons_of_mem f hmem, cause, h.2 ▸ hc⟩
        · rw [if_neg hval] at h
          cases hsfv : setFieldValue f.spec.type f.spec.canSet
              (resolveValue c env f.spec) with
          | ok v =>
            rw [hsfv] at h
            cases hrec : parseFields c env rest with
            | done fsr => rw [hrec] at h; simp [ParseOutcome.consField] at h
            | panicked fsr mr => rw [hrec] at h; simp [ParseOutcome.consField] at h
            | failed fsr mr =>
              rw [hrec] at h
              simp only [ParseOutcome.consField, ParseOutcome.failed.injEq] at h
              obtain ⟨i, hmem, cause, hc⟩ := ih fsr mr hrec
              exact ⟨i, List.mem_cons_of_mem f hmem, cause, h.2 ▸ hc⟩
          | err e =>
            rw [hsfv] at h
            simp only [ParseOutcome.failed.injEq] at h
            exact ⟨f, List.mem_cons_self f rest, e, h.2.symm⟩
          | panicked mp =>
            rw [hsfv] at h
            simp at h

/-- C2 witness: the per-field totality applied at a duration field with an
unparsable value, and the Parse-level error naming at a failing field. -/
theorem C2_populate_safety_witness :
    ((∃ fv, setFieldValue .tDuration true "zz" = .ok fv) ∨
      (∃ e, setFieldValue .tDuration true "zz" = .err e)) ∧
    (∃ f ∈ ([⟨⟨"B", "B", "zz", .tInt, true⟩, .vInt 0⟩] : List GoField),
      ∃ cause,
        ("failed to set field B: invalid integer value: strconv.ParseInt: parsing " ++
            goQuote "zz" ++ ": invalid syntax") =
          "failed to set field " ++ f.spec.name ++ ": " ++ cause) :=
  ⟨C2_populate_safety.1 .tDuration (by decide) "zz",
   C2_populate_safety.2.2.2.1 (Config.mk "production" "") (fun _ => "")
      [⟨⟨"B", "B", "zz", .tInt, true⟩, .vInt 0⟩]
      [⟨⟨"B", "B", "zz", .tInt, true⟩, .vInt 0⟩]
      ("failed to set field B: invalid integer value: strconv.ParseInt: parsing " ++
        goQuote "zz" ++ ": invalid syntax")
      (by decide)⟩

/-- A white-space character lies outside every character class the strict
numeric, float and duration grammars consume: it is not a digit, is fixed
by ASCII lower-casing, is none of the punctuation the parsers accept, and
is not a hex-mantissa letter. -/
theorem goIsSpace_class_facts {c : Char} (h : goIsSpace c = true) :
    isDigit c = false ∧ lowerAscii c = c ∧ c ≠ '+' ∧ c ≠ '-' ∧ c ≠ '.' ∧
    c ≠ '_' ∧ ¬('a' ≤ lowerAscii c ∧ lowerAscii c ≤ 'f') := by
  simp only [goIsSpace, decide_eq_true_eq] at h
  rcases h with h|h|h|h|h|h|h|h|h|h|h|h|h|h|h|h|h|h|h|h|h|h|h|h|h <;>
    subst h <;> decide

/-- Digits are not white space. -/
theorem digit_not_space {c : Char} (h : isDigit c = true) : goIsSpace c = false := by
  by_contra hsp
  have hsp' : goIsSpace c = true := by
    revert hsp
    cases goIsSpace c <;> simp
  exact absurd h (by simp [(goIsSpace_class_facts hsp').1])

/-- A digit-run accumulation succeeds only on all-digit input. -/
theorem decDigitsVal_all_digits :
    ∀ (l : List Char) (acc n : Nat), decDigitsVal l acc = some n →
      ∀ c ∈ l, isDigit c = true := by
  intro l
  induction l with
  | nil =>
    intro acc n h c hc
    simp at hc
  | cons a t ih =>
    intro acc n h c hc
    rw [decDigitsVal] at h
    by_cases ha : isDigit a
    · rw [if_pos ha] at h
      rcases List.mem_cons.mp hc with rfl | hct
      · exact ha
      · exact ih _ n h c hct
    · rw [if_neg ha] at h
      exact absurd h (by simp)

/-- A successful `ParseInt` consumed only a sign and digits: no white
space anywhere in the input. -/
theorem goParseIntCore_ok_no_space {s : String} {n : ℤ}
    (h : goParseIntCore s = .ok n) : ∀ c ∈ s.data, goIsSpace c = false := by
  intro c hc
  unfold goParseIntCore at h
  by_contra hsp
  have hsp' : goIsSpace c = true := by
    revert hsp
    cases goIsSpace c <;> simp
  obtain ⟨hdig, hlow, hplus, hminus, hdot, hund, hhex⟩ := goIsSpace_class_facts hsp'
  have hnotdig : ¬isDigit c = true := by simp [hdig]
  split at h
  rename_i x neg digits heq
  split at heq
  · rename_i x2 rest hsd
    injection heq with h1 h2
    subst h1
    subst h2
    rw [hsd] at hc
    rcases List.mem_cons.mp hc with rfl | hct
    · exact hplus rfl
    · split at h
      · simp at h
      · split at h
        · simp at h
        · rename_i n0 hdv
          exact absurd (decDigitsVal_all_digits rest 0 n0 hdv c hct) hnotdig
  · rename_i x2 rest hsd
    injection heq with h1 h2
    subst h1
    subst h2
    rw [hsd] at hc
    rcases List.mem_cons.mp hc with rfl | hct
    · exact hminus rfl
    · split at h
      · simp at h
      · split at h
        · simp at h
        · rename_i n0 hdv
          exact absurd (decDigitsVal_all_digits rest 0 n0 hdv c hct) hnotdig
  · injection heq with h1 h2
    subst h1
    subst h2
    split at h
    · simp at h
    · split at h
      · simp at h
      · rename_i n0 hdv
        exact absurd (decDigitsVal_all_digits s.data 0 n0 hdv c hc) hnotdig

/-- A successful `ParseUint` consumed only digits. -/
theorem goParseUint64_ok_no_space {s : String} {n : Nat}
    (h : goParseUint64 s = .ok n) : ∀ c ∈ s.data, goIsSpace c = false := by
  intro c hc
  unfold goParseUint64 at h
  split at h
  · rename_i heq
    rw [heq] at hc
    simp at hc
  · split at h
    · simp at h
    · rename_i n0 hdv
      exact digit_not_space ((decDigitsVal_all_digits s.data 0 n0 hdv) c hc)

/-- The sign step never consumes white space. -/
theorem stripSign_space {l : List Char} {c : Char} (hc : c ∈ l)
    (hsp : goIsSpace c = true) : c ∈ (stripSign l).2 := by
  obtain ⟨hdig, hlow, hplus, hminus, hdot, hund, hhex⟩ := goIsSpace_class_facts hsp
  unfold stripSign
  split
  · rename_i rest
    rcases List.mem_cons.mp hc with rfl | hct
    · exact absurd rfl hplus
    · exact hct
  · rename_i rest
    rcases List.mem_cons.mp hc with rfl | hct
    · exact absurd rfl hminus
    · exact hct
  · exact hc

/-- The exponent-sign step never consumes white space. -/
theorem stripExpSign_space {l : List Char} {c : Char} (hc : c ∈ l)
    (hsp : goIsSpace c = true) : c ∈ (stripExpSign l).2 := by
  obtain ⟨hdig, hlow, hplus, hminus, hdot, hund, hhex⟩ := goIsSpace_class_facts hsp
  unfold stripExpSign
  split
  · rename_i rest
    rcases List.mem_cons.mp hc with rfl | hct
    · exact absurd rfl hplus
    · exact hct
  · rename_i rest
    rcases List.mem_cons.mp hc with rfl | hct
    · exact absurd rfl hminus
    · exact hct
  · exact hc

/-- The hex-prefix step never consumes white space. -/
theorem stripHexPrefix_space {l : List Char} {c : Char} (hc : c ∈ l)
    (hsp : goIsSpace c = true) : c ∈ (stripHexPrefix l).2 := by
  obtain ⟨hdig, hlow, hplus, hminus, hdot, hund, hhex⟩ := goIsSpace_class_facts hsp
  unfold stripHexPrefix
  split
  · rename_i x c2 rest
    by_cases hx : lowerAscii x = 'x'
    · rw [if_pos hx]
      rcases List.mem_cons.mp hc with rfl | hct
      · exact absurd hsp (by decide)
      · rcases List.mem_cons.mp hct with rfl | hct2
        · rw [hlow] at hx
          subst hx
          exact absurd hsp (by decide)
        · exact hct2
    · rw [if_neg hx]
      exact hc
  · exact hc

/-- The mantissa scan never consumes white space: a space anywhere in the
input survives into the unconsumed suffix. -/
theorem readMantissa_space (base maxMant : Nat) (hex : Bool) :
    ∀ (l : List Char) (st : MantissaState) (c : Char), c ∈ l →
      goIsSpace c = true → c ∈ (readMantissa base maxMant hex st l).2 := by
  intro l
  induction l with
  | nil =>
    intro st c hc hsp
    simp at hc
  | cons a t ih =>
    intro st c hc hsp
    obtain ⟨hdig, hlow, hplus, hminus, hdot, hund, hhex⟩ := goIsSpace_class_facts hsp
    rw [readMantissa]
    by_cases ha1 : a = '_'
    · rw [if_pos ha1]
      rcases List.mem_cons.mp hc with rfl | hct
      · exact absurd ha1 hund
      · exact ih _ c hct hsp
    · rw [if_neg ha1]
      by_cases ha2 : a = '.'
      · rw [if_pos ha2]
        by_cases hsd : st.sawdot = true
        · rw [if_pos hsd]
          simpa using hc
        · rw [if_neg hsd]
          rcases List.mem_cons.mp hc with rfl | hct
          · exact absurd ha2 hdot
          · exact ih _ c hct hsp
      · rw [if_neg ha2]
        by_cases ha3 : isDigit a = true
        · rw [if_pos ha3]
          rcases List.mem_cons.mp hc with rfl | hct
          · exact absurd ha3 (by simp [hdig])
          · dsimp only
            split
            · exact ih _ c hct hsp
            · exact ih _ c hct hsp
        · rw [if_neg ha3]
          by_cases ha4 : hex = true ∧ 'a' ≤ lowerAscii a ∧ lowerAscii a ≤ 'f'
          · rw [if_pos ha4]
            rcases List.mem_cons.mp hc with rfl | hct
            · exact absurd ⟨ha4.2.1, ha4.2.2⟩ hhex
            · exact ih _ c hct hsp
          · rw [if_neg ha4]
            simpa using hc

/-- The exponent-digit scan never consumes white space. -/
theorem readExpLoop_space :
    ∀ (l : List Char) (e : Nat) (us : Bool) (c : Char), c ∈ l →
      goIsSpace c = true → c ∈ (readExpLoop e us l).2.2 := by
  intro l
  induction l with
  | nil =>
    intro e us c hc hsp
    simp at hc
  | cons a t ih =>
    intro e us c hc hsp
    obtain ⟨hdig, hlow, hplus, hminus, hdot, hund, hhex⟩ := goIsSpace_class_facts hsp
    rw [readExpLoop]
    by_cases ha1 : a = '_'
    · rw [if_pos ha1]
      rcases List.mem_cons.mp hc with rfl | hct
      · exact absurd ha1 hund
      · exact ih _ _ c hct hsp
    · rw [if_neg ha1]
      by_cases ha2 : isDigit a = true
      · rw [if_pos ha2]
        rcases List.mem_cons.mp hc with rfl | hct
        · exact absurd ha2 (by simp [hdig])
        · exact ih _ _ c hct hsp
      · rw [if_neg ha2]
        simpa using hc

/-- `readFloat` never consumes white space: when it succeeds, any space in
the input is still in the returned unconsumed suffix. -/
theorem goReadFloat_space {l : List Char} {res : GoFloatNum × Bool × List Char}
    (h : goReadFloat l = some res) {c : Char} (hc : c ∈ l)
    (hsp : goIsSpace c = true) : c ∈ res.2.2 := by
  obtain ⟨hdig, hlow, hplus, hminus, hdot, hund, hhexcl⟩ := goIsSpace_class_facts hsp
  unfold goReadFloat at h
  rcases hs1 : stripSign l with ⟨neg, l1⟩
  rw [hs1] at h
  dsimp only at h
  have hc1 : c ∈ l1 := by
    have hm := stripSign_space hc hsp
    rw [hs1] at hm
    exact hm
  rcases hs2 : stripHexPrefix l1 with ⟨hex, l2⟩
  rw [hs2] at h
  dsimp only at h
  have hc2 : c ∈ l2 := by
    have hm := stripHexPrefix_space hc1 hsp
    rw [hs2] at hm
    exact hm
  cases hex with
  | false =>
    simp only [Bool.false_eq_true, if_false] at h
    rcases hs3 : readMantissa 10 19 false {} l2 with ⟨st, l3⟩
    rw [hs3] at h
    dsimp only at h
    have hc3 : c ∈ l3 := by
      have hm := readMantissa_space 10 19 false l2 {} c hc2 hsp
      rw [hs3] at hm
      exact hm
    by_cases hsaw : st.sawdigits = false
    · rw [if_pos hsaw] at h
      exact absurd h (by simp)
    · rw [if_neg hsaw] at h
      cases l3 with
      | nil =>
        simp at hc3
      | cons c1 rest1 =>
        dsimp only at h
        by_cases he : lowerAscii c1 = 'e'
        · rw [if_pos he] at h
          rcases hse : stripExpSign rest1 with ⟨esign, r1⟩
          rw [hse] at h
          dsimp only at h
          rcases List.mem_cons.mp hc3 with rfl | hct
          · rw [hlow] at he
            subst he
            exact absurd hsp (by decide)
          · have hcr1 : c ∈ r1 := by
              have hm := stripExpSign_space hct hsp
              rw [hse] at hm
              exact hm
            cases r1 with
            | nil => exact absurd h (by simp)
            | cons d rd =>
              dsimp only at h
              by_cases hd : isDigit d = true
              · rw [if_pos hd] at h
                rcases hexp : readExpLoop 0 st.underscores (d :: rd) with ⟨e2, us2, r2⟩
                rw [hexp] at h
                dsimp only at h
                have hcr2 : c ∈ r2 := by
                  have hm := readExpLoop_space (d :: rd) 0 st.underscores c hcr1 hsp
                  rw [hexp] at hm
                  exact hm
                injection h with h'
                rw [← h']
                exact hcr2
              · rw [if_neg hd] at h
                exact absurd h (by simp)
        · rw [if_neg he] at h
          injection h with h'
          rw [← h']
          exact hc3
  | true =>
    simp only [if_true] at h
    rcases hs3 : readMantissa 16 16 true {} l2 with ⟨st, l3⟩
    rw [hs3] at h
    dsimp only at h
    have hc3 : c ∈ l3 := by
      have hm := readMantissa_space 16 16 true l2 {} c hc2 hsp
      rw [hs3] at hm
      exact hm
    by_cases hsaw : st.sawdigits = false
    · rw [if_pos hsaw] at h
      exact absurd h (by simp)
    · rw [if_neg hsaw] at h
      cases l3 with
      | nil =>
        exact absurd h (by simp)
      | cons c1 rest1 =>
        dsimp only at h
        by_cases he : lowerAscii c1 = 'p'
        · rw [if_pos he] at h
          rcases hse : stripExpSign rest1 with ⟨esign, r1⟩
          rw [hse] at h
          dsimp only at h
          rcases List.mem_cons.mp hc3 with rfl | hct
          · rw [hlow] at he
            subst he
            exact absurd hsp (by decide)
          · have hcr1 : c ∈ r1 := by
              have hm := stripExpSign_space hct hsp
              rw [hse] at hm
              exact hm
            cases r1 with
            | nil => exact absurd h (by simp)
            | cons d rd =>
              dsimp only at h
              by_cases hd : isDigit d = true
              · rw [if_pos hd] at h
                rcases hexp : readExpLoop 0 st.underscores (d :: rd) with ⟨e2, us2, r2⟩
                rw [hexp] at h
                dsimp only at h
                have hcr2 : c ∈ r2 := by
                  have hm := readExpLoop_space (d :: rd) 0 st.underscores c hcr1 hsp
                  rw [hexp] at hm
                  exact hm
                injection h with h'
                rw [← h']
                exact hcr2
              · rw [if_neg hd] at h
                exact absurd h (by simp)
        · rw [if_neg he] at h
          exact absurd h (by simp)

/-- A successful `ParseFloat` input contains no white space anywhere. -/
theorem goParseFloat_ok_no_space {s : String} {f : GoFloat}
    (h : goParseFloat s = .ok f) : ∀ c ∈ s.data, goIsSpace c = false := by
  intro c hc
  by_contra hsp
  have hsp' : goIsSpace c = true := by
    revert hsp
    cases goIsSpace c <;> simp
  obtain ⟨hdig, hlow, hplus, hminus, hdot, hund, hhexcl⟩ := goIsSpace_class_facts hsp'
  have hkill : ∀ t : List Char, s.data.map lowerAscii = t →
      (∀ x ∈ t, goIsSpace x = false) → False := by
    intro t ht hall
    have hmem : c ∈ t := by
      rw [← ht, ← hlow]
      exact List.mem_map_of_mem lowerAscii hc
    rw [hall c hmem] at hsp'
    simp at hsp'
  unfold goParseFloat at h
  dsimp only at h
  split_ifs at h with h1 h2 h3
  · exact hkill _ h1 (by decide)
  · rcases h2 with h2 | h2 | h2 | h2 <;> exact hkill _ h2 (by decide)
  · rcases h3 with h3 | h3 <;> exact hkill _ h3 (by decide)
  · rcases hrf : goReadFloat s.data with _ | ⟨num, us, leftover⟩
    · rw [hrf] at h
      exact absurd h (by simp)
    · rw [hrf] at h
      dsimp only at h
      by_cases hleft : leftover ≠ []
      · rw [if_pos hleft] at h
        exact absurd h (by simp)
      · have hmem := goReadFloat_space hrf hc hsp'
        rw [not_not.mp hleft] at hmem
        simp at hmem

/-- Every unit token in the duration unit map is space-free. -/
theorem goUnitMap_some_no_space {u : String} {n : Nat} (h : goUnitMap u = some n) :
    ∀ c ∈ u.data, goIsSpace c = false := by
  unfold goUnitMap at h
  split_ifs at h with h1 h2 h3 h4 h5 h6 h7 h8
  · subst h1
    decide
  · subst h2
    decide
  · subst h3
    decide
  · subst h4
    decide
  · subst h5
    decide
  · subst h6
    decide
  · subst h7
    decide
  · subst h8
    decide

/-- `durFracStep` on input not starting with a dot is the identity step. -/
theorem durFracStep_no_dot {b : Char} {s1t : List Char} (hb : b ≠ '.') :
    durFracStep (b :: s1t) = ((0 : Nat), (1 : Nat), b :: s1t, false) := by
  unfold durFracStep
  split
  · rename_i s1' heq
    injection heq with h1 h2
    exact absurd h1 hb
  · rfl

/-- `durFracStep` on the empty list is the identity step. -/
theorem durFracStep_nil :
    durFracStep [] = ((0 : Nat), (1 : Nat), [], false) := rfl

/-- A successful duration segment loop consumed no white space: every
character is a digit, a dot, or part of a known unit token. -/
theorem durLoopF_ok_no_space (orig : String) :
    ∀ (fuel : Nat), ∀ (d n : Nat) (l : List Char),
      durLoopF orig fuel d l = .ok n → ∀ c ∈ l, goIsSpace c = false := by
  intro fuel
  induction fuel with
  | zero =>
    intro d n l h c hc
    cases l with
    | nil => simp at hc
    | cons a t =>
      rw [durLoopF] at h
      exact absurd h (by simp)
  | succ fuel ih =>
    intro d n l h c hc
    cases l with
    | nil => simp at hc
    | cons a t =>
      rw [durLoopF] at h
      by_contra hsp
      have hsp' : goIsSpace c = true := by
        revert hsp
        cases goIsSpace c <;> simp
      obtain ⟨hdig, hlow, hplus, hminus, hdot, hund, hhexcl⟩ :=
        goIsSpace_class_facts hsp'
      have hc' := hc
      rw [← List.takeWhile_append_dropWhile isDigit (a :: t)] at hc'
      rcases List.mem_append.mp hc' with hcI | hcS1
      · exact absurd (List.mem_takeWhile_imp hcI) (by simp [hdig])
      by_cases ha : ¬(a = '.' ∨ isDigit a = true)
      · rw [if_pos ha] at h
        exact absurd h (by simp)
      rw [if_neg ha] at h
      dsimp only at h
      split at h
      · exact absurd h (by simp)
      rename_i v hiv
      rcases hS1shape : List.dropWhile isDigit (a :: t) with _ | ⟨b, s1t⟩
      · rw [hS1shape] at hcS1
        simp at hcS1
      by_cases hb : b = '.'
      · subst hb
        rw [hS1shape] at h hcS1
        rcases List.mem_cons.mp hcS1 with rfl | hcs
        · exact hdot rfl
        have hcs' := hcs
        rw [← List.takeWhile_append_dropWhile isDigit s1t] at hcs'
        rcases List.mem_append.mp hcs' with hcF | hcS2
        · exact absurd (List.mem_takeWhile_imp hcF) (by simp [hdig])
        have hcS2' := hcS2
        rw [← List.takeWhile_append_dropWhile isUnitChar
          (List.dropWhile isDigit s1t)] at hcS2'
        simp only [durFracStep] at h
        split at h
        · exact absurd h (by simp)
        split at h
        · exact absurd h (by simp)
        split at h
        · exact absurd h (by simp)
        rename_i unit hunit
        split_ifs at h
        all_goals
          first
          | (rcases List.mem_append.mp hcS2' with hcU | hcS3
             · have hx := goUnitMap_some_no_space hunit c hcU
               rw [hx] at hsp'
               simp at hsp'
             · rw [ih _ n _ h c hcS3] at hsp'
               simp at hsp')
          | simp at h
          | omega
      · rw [hS1shape] at h hcS1
        rw [durFracStep_no_dot hb] at h
        dsimp only at h
        have hcS1' := hcS1
        rw [← List.takeWhile_append_dropWhile isUnitChar (b :: s1t)] at hcS1'
        split at h
        · exact absurd h (by simp)
        split at h
        · exact absurd h (by simp)
        split at h
        · exact absurd h (by simp)
        rename_i unit hunit
        split_ifs at h
        all_goals
          first
          | (rcases List.mem_append.mp hcS1' with hcU | hcS3
             · have hx := goUnitMap_some_no_space hunit c hcU
               rw [hx] at hsp'
               simp at hsp'
             · rw [ih _ n _ h c hcS3] at hsp'
               simp at hsp')
          | simp at h
          | omega

/-- A successful `time.ParseDuration` input contains no white space. -/
theorem goParseDuration_ok_no_space {s : String} {d : ℤ}
    (h : goParseDuration s = .ok d) : ∀ c ∈ s.data, goIsSpace c = false := by
  intro c hc
  by_contra hsp
  have hsp' : goIsSpace c = true := by
    revert hsp
    cases goIsSpace c <;> simp
  obtain ⟨hdig, hlow, hplus, hminus, hdot, hund, hhexcl⟩ :=
    goIsSpace_class_facts hsp'
  have hnotdig : ¬isDigit c = true := by simp [hdig]
  unfold goParseDuration at h
  split at h
  rename_i p neg l hsign
  have hcl : c ∈ l := by
    split at hsign
    · rename_i rest hsd
      injection hsign with h1 h2
      subst h2
      rw [hsd] at hc
      rcases List.mem_cons.mp hc with rfl | hct
      · exact absurd rfl hminus
      · exact hct
    · rename_i rest hsd
      injection hsign with h1 h2
      subst h2
      rw [hsd] at hc
      rcases List.mem_cons.mp hc with rfl | hct
      · exact absurd rfl hplus
      · exact hct
    · injection hsign with h1 h2
      subst h2
      exact hc
  by_cases h0 : l = ['0']
  · rw [h0] at hcl
    rcases List.mem_cons.mp hcl with rfl | hct
    · exact hnotdig (by decide)
    · simp at hct
  rw [if_neg h0] at h
  by_cases hnil : l = []
  · rw [hnil] at hcl
    simp at hcl
  rw [if_neg hnil] at h
  unfold durLoop at h
  split at h
  · exact absurd h (by simp)
  · rename_i d0 hdl
    rw [durLoopF_ok_no_space s l.length 0 d0 l hdl c hcl] at hsp'
    simp at hsp'

/-- C10: the strict numeric and duration coercions apply no whitespace
trimming before parsing: any raw value containing a white-space character
(in particular an otherwise-valid literal surrounded by whitespace, such
as `" 42"` or `"30s "`) makes `Int()`, `Float64()` and `Duration()` on a
failure-free result return a parse error, and makes the populator's
signed, unsigned, float and duration field coercions fail — in contrast
to the list and map coercions, which trim whitespace around each element,
key and value. -/
theorem C10_strict_no_whitespace_trim (key v : String) (c : Char)
    (hc : c ∈ v.data) (hsp : goIsSpace c = true) :
    (∃ e, (GoResult.mk key v none).Int = .error e) ∧
    (∃ e, (GoResult.mk key v none).Float64 = .error e) ∧
    (∃ e, (GoResult.mk key v none).Duration = .error e) ∧
    (∀ t ∈ strictNumericKinds, ∃ e, setFieldValue t true v = .err e) ∧
    (GoResult.mk "K" " 42 " none).Slice "," = ["42"] ∧
    (GoResult.mk "K" " k : 30s " none).Map = [("k", "30s")] := by
  have hv : v ≠ "" := by
    intro h0
    rw [h0] at hc
    simp at hc
  have hcore : ∃ r, goParseIntCore v = .error r := by
    cases hx : goParseIntCore v with
    | error r => exact ⟨r, rfl⟩
    | ok n =>
      rw [goParseIntCore_ok_no_space hx c hc] at hsp
      simp at hsp
  have hAtoi : ∃ e, goAtoi v = .error e := by
    obtain ⟨r, hr⟩ := hcore
    exact ⟨"strconv.Atoi: parsing " ++ goQuote v ++ ": " ++ r.msg, by simp [goAtoi, hr]⟩
  have hInt64 : ∃ e, goParseInt64 v = .error e := by
    obtain ⟨r, hr⟩ := hcore
    exact ⟨"strconv.ParseInt: parsing " ++ goQuote v ++ ": " ++ r.msg,
      by simp [goParseInt64, hr]⟩
  have hUint : ∃ e, goParseUint64 v = .error e := by
    cases hx : goParseUint64 v with
    | error e => exact ⟨e, rfl⟩
    | ok n =>
      rw [goParseUint64_ok_no_space hx c hc] at hsp
      simp at hsp
  have hFloat : ∃ e, goParseFloat v = .error e := by
    cases hx : goParseFloat v with
    | error e => exact ⟨e, rfl⟩
    | ok f =>
      rw [goParseFloat_ok_no_space hx c hc] at hsp
      simp at hsp
  have hDur : ∃ e, goParseDuration v = .error e := by
    cases hx : goParseDuration v with
    | error e => exact ⟨e, rfl⟩
    | ok d =>
      rw [goParseDuration_ok_no_space hx c hc] at hsp
      simp at hsp
  obtain ⟨eA, heA⟩ := hAtoi
  obtain ⟨eI, heI⟩ := hInt64
  obtain ⟨eU, heU⟩ := hUint
  obtain ⟨eF, heF⟩ := hFloat
  obtain ⟨eD, heD⟩ := hDur
  refine ⟨⟨eA, by simp [GoResult.Int, hv, heA]⟩,
    ⟨eF, by simp [GoResult.Float64, hv, heF]⟩,
    ⟨eD, by simp [GoResult.Duration, hv, heD]⟩,
    ?_, by decide, by decide⟩
  intro t ht
  fin_cases ht
  · exact ⟨"invalid integer value: " ++ eI, by simp [setFieldValue, heI]⟩
  · exact ⟨"invalid integer value: " ++ eI, by simp [setFieldValue, heI]⟩
  · exact ⟨"invalid integer value: " ++ eI, by simp [setFieldValue, heI]⟩
  · exact ⟨"invalid integer value: " ++ eI, by simp [setFieldValue, heI]⟩
  · exact ⟨"invalid integer value: " ++ eI, by simp [setFieldValue, heI]⟩
  · exact ⟨"invalid duration value: " ++ eD, by simp [setFieldValue, heD]⟩
  · exact ⟨"invalid unsigned integer value: " ++ eU, by simp [setFieldValue, heU]⟩
  · exact ⟨"invalid unsigned integer value: " ++ eU, by simp [setFieldValue, heU]⟩
  · exact ⟨"invalid unsigned integer value: " ++ eU, by simp [setFieldValue, heU]⟩
  · exact ⟨"invalid unsigned integer value: " ++ eU, by simp [setFieldValue, heU]⟩
  · exact ⟨"invalid unsigned integer value: " ++ eU, by simp [setFieldValue, heU]⟩
  · exact ⟨"invalid float value: " ++ eF, by simp [setFieldValue, heF]⟩
  · exact ⟨"invalid float value: " ++ eF, by simp [setFieldValue, heF]⟩

/-- C10 witness: `" 42"` (leading space) and `"30s "` (trailing space)
fail every strict coercion while the list and map coercions trim. -/
theorem C10_strict_no_whitespace_trim_witness :
    (∃ e, (GoResult.mk "K" " 42" none).Int = .error e) ∧
    (∃ e, (GoResult.mk "K" "30s " none).Duration = .error e) ∧
    (∃ e, setFieldValue .tDuration true "30s " = .err e) ∧
    (GoResult.mk "K" " 42 " none).Slice "," = ["42"] :=
  ⟨(C10_strict_no_whitespace_trim "K" " 42" ' ' (by decide) (by decide)).1,
   (C10_strict_no_whitespace_trim "K" "30s " ' ' (by decide) (by decide)).2.2.1,
   (C10_strict_no_whitespace_trim "K" "30s " ' ' (by decide) (by decide)).2.2.2.1
     .tDuration (by decide),
   (C10_strict_no_whitespace_trim "K" " 42" ' ' (by decide) (by decide)).2.2.2.2.1⟩

end GoEnv
